import Mathlib

/-!
# Verification of the `VirtualList` widget

Shallow embedding of `src/unnamed/part_000` (the completed variant of
`virtual-list.js`): a virtualized-list component with a bounded pool of
recycled item views, two page cursors (`start`, `end`), and a position
engine that lays the pooled views out vertically.

Modelling conventions:
* Measured heights (`getBoundingClientRect().height`) and vertical
  positions are integers (`ℤ`); nothing in the verified logic depends on
  fractional pixel values.
* The `data-y` attribute (read/written through the JS helper `y`) is an
  `Option ℤ`: `none` models the attribute being absent (`y` returns
  `null`), `some v` models a stored numeric value.
* `this.end` is a Lean keyword, so the field is named `endIdx`.
* JS `Array.prototype.at` accepts negative indices that wrap from the
  end; the loops below only ever use `at(i-1)` at `i = 0` (which is the
  last element) and `at(i+1)` / `at(-1)`, modelled with `getLast?` and
  `get?`.
* The asynchronous handlers are modelled run-to-completion: `getPage` is
  a pure function `ℤ → List α` and each handler is an atomic state
  transformer.  Handlers additionally return the list of page indices
  they fetched, so that "no fetch call occurs" is statable.
* Where JS would throw (indexing `undefined`), the model is junk-total
  (`Option.getD 0`); every theorem below constrains its inputs to the
  in-bounds situations the component actually runs in.
-/

namespace VirtualListSpec

/-- `const MARGIN = 16` — standard margin between cards. -/
def MARGIN : ℤ := 16

/-! ## Position engine state: views

A pooled view, as far as the position engine observes it: its measured
height and its stored `data-y` attribute. -/

structure View where
  height : ℤ
  yPos : Option ℤ
  deriving Repr, DecidableEq

/-- Replace the element at index `i` (no-op when out of range), modelling
an in-place mutation of one pooled element. -/
def modifyAt : List View → Nat → (View → View) → List View
  | [], _, _ => []
  | v :: rest, 0, f => f v :: rest
  | v :: rest, i + 1, f => v :: modifyAt rest i f

/-- The stored `data-y` of the view at index `i`; `none` when the index is
out of range or the attribute is unset (both make the JS `y` helper return
`null`). -/
def yAt (l : List View) (i : Nat) : Option ℤ :=
  (l.get? i).bind View.yPos

/-- Measured height of the view at index `i` (junk value 0 out of range). -/
def hAt (l : List View) (i : Nat) : ℤ :=
  ((l.get? i).map View.height).getD 0

/-- One iteration of the `direction === "down"` loop at index `i`:
`prev = pool.at(i - 1)` (which wraps to the last element when `i = 0`),
`curr = pool[i]`; if `y(prev)` is `null` then `y(curr, 0)`, else
`y(curr, y(prev) + MARGIN * 2 + prev.height)`. -/
def downStep (pool : List View) (i : Nat) : List View :=
  let prev : Option View := if i = 0 then pool.getLast? else pool.get? (i - 1)
  match prev.bind View.yPos with
  | none => modifyAt pool i (fun c => { c with yPos := some 0 })
  | some py =>
      let ph := (prev.map View.height).getD 0
      modifyAt pool i (fun c => { c with yPos := some (py + MARGIN * 2 + ph) })

/-- The first `k` iterations of the "down" loop (`i = 0, 1, …, k-1`). -/
def downUpTo (pool : List View) (k : Nat) : List View :=
  (List.range k).foldl downStep pool

/-- The full `direction === "down"` pass:
`for (let i = 0; i < this.pool.length; i++) { … }`. -/
def downLoop (pool : List View) : List View :=
  downUpTo pool pool.length

/-- One iteration of the `direction === "top"` loop at index `i`:
`curr = pool[i]`, `next = pool.at(i + 1)`;
`newY = y(next) - MARGIN * 2 - curr.height` (JS coerces a `null` reading
of `y(next)` to 0). -/
def topStep (pool : List View) (i : Nat) : List View :=
  let next := pool.get? (i + 1)
  let curr := pool.get? i
  let newY := ((next.bind View.yPos).getD 0) - MARGIN * 2 - ((curr.map View.height).getD 0)
  modifyAt pool i (fun c => { c with yPos := some newY })

/-- The first `k` iterations of the "top" loop, which walks downward:
`i = ps-1, ps-2, …, ps-k`. -/
def topUpTo (ps : Nat) (pool : List View) : Nat → List View
  | 0 => pool
  | k + 1 => topStep (topUpTo ps pool k) (ps - 1 - k)

/-- The full `direction === "top"` pass:
`for (let i = this.props.pageSize - 1; i >= 0; i--) { … }`. -/
def topLoop (ps : Nat) (pool : List View) : List View :=
  topUpTo ps pool ps

inductive Direction where
  | top
  | down
  deriving Repr, DecidableEq

/-- Outcome of `#updateElementsPosition`: the mutated pool plus the
vertical offsets pushed (via `translateY`) to the two sentinels.  `none`
models the garbage transform produced when the relevant `data-y` reading
is `null`. -/
structure LayoutResult where
  pool : List View
  topY : Option ℤ
  bottomY : Option ℤ
  deriving Repr, DecidableEq

/-- `#updateElementsPosition(direction)`: run the directional pass, then
set `top.style.transform = translateY(y(first))` and
`bottom.style.transform = translateY(y(last) + MARGIN * 2 + last.height)`
(JS coerces a `null` reading of `y(last)` to 0 in the sum). -/
def updateElementsPosition (ps : Nat) (direction : Direction) (pool : List View) :
    LayoutResult :=
  let pool' := match direction with
    | .down => downLoop pool
    | .top => topLoop ps pool
  let first := pool'.head?
  let last := pool'.getLast?
  let topY := first.bind View.yPos
  let bottomY := last.map (fun l => (l.yPos.getD 0) + MARGIN * 2 + l.height)
  ⟨pool', topY, bottomY⟩

/-! ## Window manager -/

/-- The `props` bag handed to the constructor.  `getPage` is the
asynchronous paged data source, modelled as a pure function (the claims
all assume run-to-completion handling). -/
structure Props (α β : Type) where
  getPage : ℤ → List α
  getTemplate : α → β
  updateTemplate : α → β → β
  pageSize : Nat

/-- Component state: the fields set by the constructor
(`this.start = 0; this.end = 0; this.limit = this.props.pageSize * 2;
this.pool = []`).  `endIdx` models `this.end`. -/
structure VirtualList (α β : Type) where
  props : Props α β
  start : ℤ
  endIdx : ℤ
  limit : Nat
  pool : List β

/-- The constructor. -/
def construct (props : Props α β) : VirtualList α β :=
  { props := props, start := 0, endIdx := 0, limit := props.pageSize * 2, pool := [] }

/-- `#updateData(elements, data)`: `for (let i = 0; i < data.length; i++)
updateTemplate(data[i], elements[i])` — rebinds element `i` to datum `i`;
elements beyond `data.length` are untouched. -/
def updateData (f : α → β → β) : List β → List α → List β
  | es, [] => es
  | [], _ :: _ => []
  | e :: es, d :: ds => f d e :: updateData f es ds

/-- `#handleBottomObserver`: fetch page `this.end++`; if the pool is below
the limit, append one freshly created view per record; else move the first
`pageSize` views to the tail, rebind them to the fetched records, and
increment `start`.  Also returns the fetched page indices. -/
def handleBottomObserver (s : VirtualList α β) : VirtualList α β × List ℤ :=
  let fetched := s.endIdx
  let data := s.props.getPage fetched
  let s := { s with endIdx := s.endIdx + 1 }
  if s.pool.length < s.limit then
    ({ s with pool := s.pool ++ data.map s.props.getTemplate }, [fetched])
  else
    let toRecycle := s.pool.take s.props.pageSize
    let unchanged := s.pool.drop s.props.pageSize
    ({ s with
        pool := unchanged ++ updateData s.props.updateTemplate toRecycle data,
        start := s.start + 1 }, [fetched])

/-- `#handleTopObserver`: decrement `start` and `end`, fetch page `start`
(post-decrement), move the views after the first `pageSize` to the head
and rebind them to the fetched records.  Also returns the fetched page
indices. -/
def handleTopObserver (s : VirtualList α β) : VirtualList α β × List ℤ :=
  let s := { s with start := s.start - 1, endIdx := s.endIdx - 1 }
  let data := s.props.getPage s.start
  let unchanged := s.pool.take s.props.pageSize
  let toRecycle := s.pool.drop s.props.pageSize
  ({ s with pool := updateData s.props.updateTemplate toRecycle data ++ unchanged },
   [s.start])

/-- One `IntersectionObserverEntry`, reduced to the two fields the handler
reads: `isIntersecting` and `target.id`. -/
structure ObserverEntry where
  isIntersecting : Bool
  targetId : String
  deriving Repr, DecidableEq

/-- Dispatch of a single entry inside `#handleIntersectionObserver`:
`if (entry.isIntersecting) { if (id === "top-observer" && this.start > 0)
… else if (id === "bottom-observer") … }`. -/
def handleEntry (s : VirtualList α β) (e : ObserverEntry) : VirtualList α β × List ℤ :=
  if e.isIntersecting then
    if e.targetId = "top-observer" ∧ s.start > 0 then
      handleTopObserver s
    else if e.targetId = "bottom-observer" then
      handleBottomObserver s
    else
      (s, [])
  else
    (s, [])

/-- `#handleIntersectionObserver(entries)`: process the entries in order
(modelled run-to-completion, per the claims' no-interleaving
precondition), accumulating the fetch log. -/
def handleIntersectionObserver (s : VirtualList α β) :
    List ObserverEntry → VirtualList α β × List ℤ
  | [] => (s, [])
  | e :: rest =>
      let r := handleEntry s e
      let r' := handleIntersectionObserver r.1 rest
      (r'.1, r.2 ++ r'.2)

/-- The state after mounting and then processing a stream of observer
entries. -/
def runEntries (s : VirtualList α β) (entries : List ObserverEntry) : VirtualList α β :=
  (handleIntersectionObserver s entries).1

/-! ## Untyped constructor model (configuration validation)

The JS constructor receives an arbitrary object; any of the config fields
may be absent.  The constructor body performs no validation: it stores the
props, the cursors and an empty pool, computing `this.limit =
this.props.pageSize * 2` (which is `NaN` — modelled `none` — when
`pageSize` is absent).  The first error can only surface later, when a
boundary handler calls `this.props.getPage(...)`. -/

structure RawProps (α β : Type) where
  getPage : Option (ℤ → List α)
  getTemplate : Option (α → β)
  updateTemplate : Option (α → β → β)
  pageSize : Option Nat

structure RawVirtualList (α β : Type) where
  props : RawProps α β
  start : ℤ
  endIdx : ℤ
  limit : Option Nat
  pool : List β

/-- The constructor, over raw (possibly missing) config fields.  It throws
nothing: the result is always `.ok`. -/
def constructRaw (props : RawProps α β) : Except String (RawVirtualList α β) :=
  .ok { props := props, start := 0, endIdx := 0,
        limit := props.pageSize.map (· * 2), pool := [] }

/-- The synchronous prefix of the first `#handleBottomObserver` reaction:
evaluating `this.props.getPage(this.end++)`.  With `getPage` absent this is
where the `TypeError` is raised. -/
def firstBottomEventFetch (s : RawVirtualList α β) : Except String (List α) :=
  match s.props.getPage with
  | none => .error "TypeError: this.props.getPage is not a function"
  | some f => .ok (f s.endIdx)

/-! ## Helper lemmas: `modifyAt` -/

theorem modifyAt_length (l : List View) (i : Nat) (f : View → View) :
    (modifyAt l i f).length = l.length := by
  induction l generalizing i with
  | nil => rfl
  | cons v rest ih =>
    cases i with
    | zero => rfl
    | succ i => simp [modifyAt, ih]

theorem get?_modifyAt_ne (l : List View) (i j : Nat) (f : View → View) (h : j ≠ i) :
    (modifyAt l i f).get? j = l.get? j := by
  induction l generalizing i j with
  | nil => rfl
  | cons v rest ih =>
    cases i with
    | zero =>
      cases j with
      | zero => exact absurd rfl h
      | succ j => rfl
    | succ i =>
      cases j with
      | zero => rfl
      | succ j =>
        simp only [modifyAt, List.get?]
        exact ih i j (fun hji => h (congrArg Nat.succ hji))

theorem get?_modifyAt_eq (l : List View) (i : Nat) (f : View → View) :
    (modifyAt l i f).get? i = (l.get? i).map f := by
  induction l generalizing i with
  | nil => rfl
  | cons v rest ih =>
    cases i with
    | zero => rfl
    | succ i => simpa [modifyAt] using ih i

/-! ## Helper lemmas: loop unfoldings -/

theorem downUpTo_zero (pool : List View) : downUpTo pool 0 = pool := rfl

theorem downUpTo_succ (pool : List View) (k : Nat) :
    downUpTo pool (k + 1) = downStep (downUpTo pool k) k := by
  simp [downUpTo, List.range_succ]

/-- The value the "down" pass stores on the first pool view: 0 when the
last view's `data-y` is unset (the JS `y(pool.at(-1))` reads `null`),
else that stored value plus margins plus the last view's height — because
`pool.at(i - 1)` wraps around to the last element at `i = 0`. -/
def downFirstVal (pool : List View) : ℤ :=
  match pool.getLast?.bind View.yPos with
  | none => 0
  | some py => py + MARGIN * 2 + ((pool.getLast?.map View.height).getD 0)

theorem downStep_zero_none (pool : List View)
    (h : pool.getLast?.bind View.yPos = none) :
    downStep pool 0 = modifyAt pool 0 (fun c => { c with yPos := some 0 }) := by
  simp [downStep, h]

theorem downStep_zero_some (pool : List View) (py : ℤ)
    (h : pool.getLast?.bind View.yPos = some py) :
    downStep pool 0 = modifyAt pool 0
      (fun c => { c with
        yPos := some (py + MARGIN * 2 + ((pool.getLast?.map View.height).getD 0)) }) := by
  simp [downStep, h]

theorem downStep_pos_some (pool : List View) (i : Nat) (p : ℤ) (hi : i ≠ 0)
    (hp : (pool.get? (i - 1)).bind View.yPos = some p) :
    downStep pool i = modifyAt pool i
      (fun c => { c with
        yPos := some (p + MARGIN * 2 + ((pool.get? (i - 1)).map View.height).getD 0) }) := by
  have hp2 : pool[i - 1]?.bind (fun a => a.yPos) = some p := by simpa using hp
  simp [downStep, hi, hp2]

theorem yAt_modifyAt_self (l : List View) (i : Nat) (v : View) (w : ℤ)
    (h : l.get? i = some v) :
    yAt (modifyAt l i (fun c => { c with yPos := some w })) i = some w := by
  unfold yAt
  rw [get?_modifyAt_eq, h]
  rfl

theorem map_height_modifyAt (l : List View) (i j : Nat) (w : ℤ) :
    ((modifyAt l i (fun c => { c with yPos := some w })).get? j).map View.height
      = (l.get? j).map View.height := by
  by_cases hji : j = i
  · subst hji
    rw [get?_modifyAt_eq]
    cases l.get? j <;> rfl
  · rw [get?_modifyAt_ne l i j _ hji]

theorem get?_isSome_of_lt (l : List View) (i : Nat) (h : i < l.length) :
    ∃ v, l.get? i = some v := by
  cases hv : l.get? i with
  | none => exact absurd (List.get?_eq_none.mp hv) (Nat.not_le.mpr h)
  | some v => exact ⟨v, rfl⟩

/-- Main invariant of the "down" pass, after its first `k` iterations:
the pool keeps its length and heights, indices `≥ k` are untouched, index
0 holds `downFirstVal` (once processed), and each processed index `i ≥ 1`
sits at its predecessor's position plus `2 × MARGIN` plus the
predecessor's height. -/
theorem downUpTo_spec (pool : List View) (k : Nat) (hk : k ≤ pool.length) :
    (downUpTo pool k).length = pool.length
    ∧ (∀ j, k ≤ j → (downUpTo pool k).get? j = pool.get? j)
    ∧ (∀ j, ((downUpTo pool k).get? j).map View.height = (pool.get? j).map View.height)
    ∧ (0 < k → yAt (downUpTo pool k) 0 = some (downFirstVal pool))
    ∧ (∀ i, 0 < i → i < k →
        ∃ p, yAt (downUpTo pool k) (i - 1) = some p ∧
          yAt (downUpTo pool k) i = some (p + MARGIN * 2 + hAt pool (i - 1))) := by
  induction k with
  | zero =>
    refine ⟨rfl, fun j _ => rfl, fun j => rfl, fun h => absurd h (lt_irrefl 0), ?_⟩
    intro i h0 hi
    exact absurd (h0.trans hi) (Nat.not_lt_zero 0)
  | succ k ih =>
    have hk' : k ≤ pool.length := Nat.le_of_succ_le hk
    have hkn : k < pool.length := hk
    obtain ⟨ihlen, ihfix, ihh, ihzero, ihrel⟩ := ih hk'
    obtain ⟨vk, hvk⟩ := get?_isSome_of_lt pool k hkn
    have hgetk : (downUpTo pool k).get? k = some vk := by
      rw [ihfix k (le_refl k)]; exact hvk
    rw [downUpTo_succ]
    rcases Nat.eq_zero_or_pos k with hk0 | hkpos
    · -- first iteration: prev wraps to the last element of the original pool
      subst hk0
      have hpool0 : downUpTo pool 0 = pool := rfl
      rw [hpool0] at hgetk ⊢
      cases hlast : pool.getLast?.bind View.yPos with
      | none =>
        rw [downStep_zero_none pool hlast]
        refine ⟨modifyAt_length pool 0 _, ?_, ?_, ?_, ?_⟩
        · intro j hj
          exact get?_modifyAt_ne pool 0 j _ (Nat.pos_iff_ne_zero.mp hj)
        · intro j
          exact map_height_modifyAt pool 0 j 0
        · intro _
          have : downFirstVal pool = 0 := by unfold downFirstVal; rw [hlast]
          rw [this]
          exact yAt_modifyAt_self pool 0 vk 0 hgetk
        · intro i h0 hi
          exact absurd (Nat.lt_of_lt_of_le h0 (Nat.le_of_lt_succ hi)) (lt_irrefl 0)
      | some py =>
        rw [downStep_zero_some pool py hlast]
        refine ⟨modifyAt_length pool 0 _, ?_, ?_, ?_, ?_⟩
        · intro j hj
          exact get?_modifyAt_ne pool 0 j _ (Nat.pos_iff_ne_zero.mp hj)
        · intro j
          exact map_height_modifyAt pool 0 j _
        · intro _
          have : downFirstVal pool
              = py + MARGIN * 2 + ((pool.getLast?.map View.height).getD 0) := by
            unfold downFirstVal; rw [hlast]
          rw [this]
          exact yAt_modifyAt_self pool 0 vk _ hgetk
        · intro i h0 hi
          exact absurd (Nat.lt_of_lt_of_le h0 (Nat.le_of_lt_succ hi)) (lt_irrefl 0)
    · -- iteration k ≥ 1: prev is index k-1, already positioned by earlier steps
      have hkne : k ≠ 0 := Nat.pos_iff_ne_zero.mp hkpos
      -- index k-1 already carries a stored position
      have hprev : ∃ p, yAt (downUpTo pool k) (k - 1) = some p := by
        rcases Nat.eq_zero_or_pos (k - 1) with h1 | h1
        · rw [h1]
          exact ⟨downFirstVal pool, ihzero hkpos⟩
        · obtain ⟨p, _, hp2⟩ := ihrel (k - 1) h1 (Nat.sub_lt hkpos Nat.one_pos)
          exact ⟨_, hp2⟩
      obtain ⟨p, hp⟩ := hprev
      have hp' : ((downUpTo pool k).get? (k - 1)).bind View.yPos = some p := hp
      rw [downStep_pos_some (downUpTo pool k) k p hkne hp']
      have hph : (((downUpTo pool k).get? (k - 1)).map View.height).getD 0
          = hAt pool (k - 1) := by
        unfold hAt; rw [ihh (k - 1)]
      refine ⟨?_, ?_, ?_, ?_, ?_⟩
      · rw [modifyAt_length]; exact ihlen
      · intro j hj
        rw [get?_modifyAt_ne _ k j _ (Nat.ne_of_gt (Nat.lt_of_succ_le hj))]
        exact ihfix j (Nat.le_of_succ_le hj)
      · intro j
        rw [map_height_modifyAt]
        exact ihh j
      · intro _
        unfold yAt
        rw [get?_modifyAt_ne _ k 0 _ (Nat.ne_of_lt hkpos)]
        exact ihzero hkpos
      · intro i h0 hi
        rcases Nat.lt_succ_iff_lt_or_eq.mp hi with hik | hik
        · obtain ⟨q, hq1, hq2⟩ := ihrel i h0 hik
          refine ⟨q, ?_, ?_⟩
          · unfold yAt
            rw [get?_modifyAt_ne _ k (i - 1) _
                (Nat.ne_of_lt (Nat.lt_of_le_of_lt (Nat.sub_le i 1) hik))]
            exact hq1
          · unfold yAt
            rw [get?_modifyAt_ne _ k i _ (Nat.ne_of_lt hik)]
            exact hq2
        · subst hik
          refine ⟨p, ?_, ?_⟩
          · unfold yAt
            rw [get?_modifyAt_ne _ i (i - 1) _
                (Nat.ne_of_lt (Nat.sub_lt h0 Nat.one_pos))]
            exact hp
          · rw [← hph]
            exact yAt_modifyAt_self _ i vk _ hgetk

theorem downLoop_length (pool : List View) : (downLoop pool).length = pool.length :=
  (downUpTo_spec pool pool.length (le_refl _)).1

theorem downLoop_heights (pool : List View) (j : Nat) :
    ((downLoop pool).get? j).map View.height = (pool.get? j).map View.height :=
  (downUpTo_spec pool pool.length (le_refl _)).2.2.1 j

theorem downLoop_first (pool : List View) (hne : pool ≠ []) :
    yAt (downLoop pool) 0 = some (downFirstVal pool) :=
  (downUpTo_spec pool pool.length (le_refl _)).2.2.2.1 (List.length_pos.mpr hne)

theorem downLoop_rel (pool : List View) (i : Nat) (h0 : 0 < i) (hi : i < pool.length) :
    ∃ p, yAt (downLoop pool) (i - 1) = some p ∧
      yAt (downLoop pool) i = some (p + MARGIN * 2 + hAt pool (i - 1)) :=
  (downUpTo_spec pool pool.length (le_refl _)).2.2.2.2 i h0 hi

/-- Every slot of a non-trivial pool holds a stored position after a full
"down" pass. -/
theorem downLoop_isSome (pool : List View) (i : Nat) (hi : i < pool.length) :
    ∃ a, yAt (downLoop pool) i = some a := by
  rcases Nat.eq_zero_or_pos i with h0 | h0
  · subst h0
    exact ⟨downFirstVal pool, downLoop_first pool
      (List.ne_nil_of_length_pos (Nat.pos_of_ne_zero (fun h => by omega)))⟩
  · obtain ⟨p, _, hp⟩ := downLoop_rel pool i h0 hi
    exact ⟨_, hp⟩

/-- Re-running the "down" pass shifts every stored position by one uniform
constant (because `pool.at(-1)` makes the second pass start from the
previous tail position instead of 0). -/
theorem downLoop_rerun_shift (pool : List View) :
    ∃ c : ℤ, ∀ i, i < pool.length →
      ∃ a, yAt (downLoop pool) i = some a ∧
        yAt (downLoop (downLoop pool)) i = some (a + c) := by
  by_cases hne : pool = []
  · exact ⟨0, fun i hi => by rw [hne] at hi; exact absurd hi (Nat.not_lt_zero i)⟩
  have hlen1 : (downLoop pool).length = pool.length := downLoop_length pool
  have hne1 : downLoop pool ≠ [] := by
    intro h
    apply hne
    have : (downLoop pool).length = 0 := by rw [h]; rfl
    exact List.length_eq_zero.mp (by omega)
  refine ⟨downFirstVal (downLoop pool) - downFirstVal pool, ?_⟩
  intro i
  induction i with
  | zero =>
    intro _
    refine ⟨downFirstVal pool, downLoop_first pool hne, ?_⟩
    rw [downLoop_first (downLoop pool) hne1]
    congr 1
    ring
  | succ i ih =>
    intro hi
    have hi' : i < pool.length := Nat.lt_of_succ_lt hi
    obtain ⟨a, ha1, ha2⟩ := ih hi'
    obtain ⟨p, hp1, hp2⟩ := downLoop_rel pool (i + 1) (Nat.succ_pos i) hi
    obtain ⟨q, hq1, hq2⟩ := downLoop_rel (downLoop pool) (i + 1) (Nat.succ_pos i)
      (by rw [hlen1]; exact hi)
    rw [Nat.succ_sub_one] at hp1 hp2 hq1 hq2
    have hpa : p = a := by
      rw [ha1] at hp1; exact (Option.some_inj.mp hp1).symm
    have hqa : q = a + (downFirstVal (downLoop pool) - downFirstVal pool) := by
      rw [ha2] at hq1; exact (Option.some_inj.mp hq1).symm
    have hh : hAt (downLoop pool) i = hAt pool i := by
      unfold hAt; rw [downLoop_heights]
    refine ⟨p + MARGIN * 2 + hAt pool i, hp2, ?_⟩
    rw [hq2, hh, hqa, hpa]
    congr 1
    ring

/-! ## The "top" pass -/

theorem topUpTo_succ (ps : Nat) (pool : List View) (k : Nat) :
    topUpTo ps pool (k + 1) = topStep (topUpTo ps pool k) (ps - 1 - k) := rfl

theorem topStep_eq (pool : List View) (i : Nat) :
    topStep pool i = modifyAt pool i
      (fun c => { c with
        yPos := some (((pool.get? (i + 1)).bind View.yPos).getD 0 - MARGIN * 2
          - ((pool.get? i).map View.height).getD 0) }) := rfl

/-- Main invariant of the "top" pass after its first `k` iterations
(indices `ps-1, …, ps-k`): length and heights are preserved, indices
outside `[ps-k, ps)` are untouched, and each processed index `i` sits at
its successor's position minus `2 × MARGIN` minus its own height. -/
theorem topUpTo_spec (ps : Nat) (pool : List View) (hps : ps < pool.length)
    (v : ℤ) (hv : yAt pool ps = some v) (k : Nat) (hk : k ≤ ps) :
    (topUpTo ps pool k).length = pool.length
    ∧ (∀ j, (j < ps - k ∨ ps ≤ j) → (topUpTo ps pool k).get? j = pool.get? j)
    ∧ (∀ j, ((topUpTo ps pool k).get? j).map View.height = (pool.get? j).map View.height)
    ∧ (∀ i, ps - k ≤ i → i < ps →
        ∃ q, yAt (topUpTo ps pool k) (i + 1) = some q ∧
          yAt (topUpTo ps pool k) i = some (q - MARGIN * 2 - hAt pool i)) := by
  induction k with
  | zero =>
    refine ⟨rfl, fun j _ => rfl, fun j => rfl, ?_⟩
    intro i hi1 hi2
    omega
  | succ k ih =>
    have hk' : k ≤ ps := Nat.le_of_succ_le hk
    obtain ⟨ihlen, ihfix, ihh, ihrel⟩ := ih hk'
    have hi0 : ps - 1 - k = ps - (k + 1) := by omega
    have hi0lt : ps - 1 - k < ps := by omega
    have hi0n : ps - 1 - k < pool.length := Nat.lt_trans hi0lt hps
    have hi0succ : ps - 1 - k + 1 = ps - k := by omega
    -- the slot to the right already carries a stored position
    have hnext : ∃ q₀, yAt (topUpTo ps pool k) (ps - 1 - k + 1) = some q₀ := by
      rcases Nat.eq_zero_or_pos k with hk0 | hkpos
      · subst hk0
        rw [hi0succ]
        exact ⟨v, by simpa using hv⟩
      · have := ihrel (ps - k) (le_refl _) (by omega)
        obtain ⟨q, _, hq⟩ := this
        rw [hi0succ]
        exact ⟨_, hq⟩
    obtain ⟨q₀, hq₀⟩ := hnext
    have hcurr : (topUpTo ps pool k).get? (ps - 1 - k) = pool.get? (ps - 1 - k) :=
      ihfix (ps - 1 - k) (Or.inl (by omega))
    obtain ⟨v₀, hv₀⟩ := get?_isSome_of_lt pool (ps - 1 - k) hi0n
    rw [topUpTo_succ, topStep_eq]
    have hnewY : (((topUpTo ps pool k).get? (ps - 1 - k + 1)).bind View.yPos).getD 0
          - MARGIN * 2 - (((topUpTo ps pool k).get? (ps - 1 - k)).map View.height).getD 0
        = q₀ - MARGIN * 2 - hAt pool (ps - 1 - k) := by
      have h1 : ((topUpTo ps pool k).get? (ps - 1 - k + 1)).bind View.yPos = some q₀ := hq₀
      rw [h1, hcurr]
      rfl
    rw [hnewY]
    refine ⟨?_, ?_, ?_, ?_⟩
    · rw [modifyAt_length]; exact ihlen
    · intro j hj
      rw [get?_modifyAt_ne _ _ j _ (by omega)]
      exact ihfix j (by omega)
    · intro j
      rw [map_height_modifyAt]
      exact ihh j
    · intro i hi1 hi2
      by_cases heq : i = ps - 1 - k
      · subst heq
        refine ⟨q₀, ?_, ?_⟩
        · unfold yAt
          rw [get?_modifyAt_ne _ _ _ _ (by omega)]
          exact hq₀
        · have : (topUpTo ps pool k).get? (ps - 1 - k) = some v₀ := by
            rw [hcurr]; exact hv₀
          exact yAt_modifyAt_self _ _ v₀ _ this
      · have hik : ps - k ≤ i := by omega
        obtain ⟨q, hq1, hq2⟩ := ihrel i hik hi2
        refine ⟨q, ?_, ?_⟩
        · unfold yAt
          rw [get?_modifyAt_ne _ _ _ _ (by omega)]
          exact hq1
        · unfold yAt
          rw [get?_modifyAt_ne _ _ _ _ (by omega)]
          exact hq2

theorem topLoop_untouched (ps : Nat) (pool : List View) (hps : ps < pool.length)
    (v : ℤ) (hv : yAt pool ps = some v) :
    ∀ j, ps ≤ j → (topLoop ps pool).get? j = pool.get? j := by
  intro j hj
  exact (topUpTo_spec ps pool hps v hv ps (le_refl _)).2.1 j (Or.inr hj)

theorem topLoop_rel (ps : Nat) (pool : List View) (hps : ps < pool.length)
    (v : ℤ) (hv : yAt pool ps = some v) :
    ∀ i, i < ps →
      ∃ q, yAt (topLoop ps pool) (i + 1) = some q ∧
        yAt (topLoop ps pool) i = some (q - MARGIN * 2 - hAt pool i) := by
  intro i hi
  exact (topUpTo_spec ps pool hps v hv ps (le_refl _)).2.2.2 i (by omega) hi

/-! ## Window-manager lemmas -/

theorem updateData_length (f : α → β → β) (es : List β) (ds : List α) :
    (updateData f es ds).length = es.length := by
  induction es generalizing ds with
  | nil => cases ds <;> rfl
  | cons e es ih =>
    cases ds with
    | nil => rfl
    | cons d ds => simp [updateData, ih]

/-- When the fetched page is at least as long as the recycle set, the
element-by-element rebinding is exactly the in-order pairing. -/
theorem updateData_eq_zipWith (f : α → β → β) (es : List β) (ds : List α)
    (h : es.length ≤ ds.length) :
    updateData f es ds = List.zipWith (fun d e => f d e) ds es := by
  induction es generalizing ds with
  | nil => cases ds <;> rfl
  | cons e es ih =>
    cases ds with
    | nil => simp at h
    | cons d ds =>
      simp only [updateData, List.zipWith]
      rw [ih ds (by simpa using h)]

theorem runEntries_nil (s : VirtualList α β) : runEntries s [] = s := rfl

theorem runEntries_cons (s : VirtualList α β) (e : ObserverEntry)
    (es : List ObserverEntry) :
    runEntries s (e :: es) = runEntries (handleEntry s e).1 es := rfl

/-- The state invariant maintained by the window manager (under exact
page sizes): the limit is as set by the constructor, the cursors are at
most two pages apart, and the pool holds exactly `pageSize` views per
page in the window. -/
def Inv (s : VirtualList α β) : Prop :=
  s.limit = s.props.pageSize * 2
  ∧ 0 ≤ s.endIdx - s.start
  ∧ s.endIdx - s.start ≤ 2
  ∧ (s.pool.length : ℤ) = (s.props.pageSize : ℤ) * (s.endIdx - s.start)

theorem construct_inv (p : Props α β) : Inv (construct p) := by
  refine ⟨rfl, by simp [construct], by simp [construct], by simp [construct]⟩

theorem handleBottomObserver_props (s : VirtualList α β) :
    (handleBottomObserver s).1.props = s.props := by
  unfold handleBottomObserver
  dsimp only
  split <;> rfl

theorem handleTopObserver_props (s : VirtualList α β) :
    (handleTopObserver s).1.props = s.props := rfl

theorem handleEntry_props (s : VirtualList α β) (e : ObserverEntry) :
    (handleEntry s e).1.props = s.props := by
  unfold handleEntry
  split
  · split
    · exact handleTopObserver_props s
    · split
      · exact handleBottomObserver_props s
      · rfl
  · rfl

theorem pool_split_length (L ps : Nat) : (L - ps) + min ps L = L := by
  rcases Nat.le_total ps L with h | h
  · rw [Nat.min_eq_left h]; omega
  · rw [Nat.min_eq_right h]; omega

theorem inv_handleBottomObserver (s : VirtualList α β)
    (hf : ∀ i, (s.props.getPage i).length = s.props.pageSize)
    (h : Inv s) : Inv (handleBottomObserver s).1 := by
  obtain ⟨hlim, h0, h2, hlen⟩ := h
  unfold handleBottomObserver
  dsimp only
  by_cases hc : s.pool.length < s.limit
  · rw [if_pos hc]
    have hps : 0 < s.props.pageSize := by
      rcases Nat.eq_zero_or_pos s.props.pageSize with hz | hp
      · rw [hlim, hz] at hc; omega
      · exact hp
    have hcz : (s.pool.length : ℤ) < (s.props.pageSize : ℤ) * 2 := by
      rw [hlim] at hc; exact_mod_cast hc
    have hd2 : s.endIdx - s.start < 2 := by
      have hpz : (0 : ℤ) < (s.props.pageSize : ℤ) := by exact_mod_cast hps
      nlinarith [hlen]
    refine ⟨hlim, by dsimp only; omega, by dsimp only; omega, ?_⟩
    simp only [List.length_append, List.length_map, hf]
    push_cast
    rw [hlen]
    ring
  · rw [if_neg hc]
    refine ⟨hlim, by dsimp only; omega, by dsimp only; omega, ?_⟩
    have hL : (s.pool.drop s.props.pageSize
        ++ updateData s.props.updateTemplate (s.pool.take s.props.pageSize)
            (s.props.getPage s.endIdx)).length = s.pool.length := by
      simp only [List.length_append, List.length_drop, updateData_length,
        List.length_take]
      exact pool_split_length s.pool.length s.props.pageSize
    rw [hL, hlen]
    ring

theorem inv_handleTopObserver (s : VirtualList α β) (h : Inv s) :
    Inv (handleTopObserver s).1 := by
  obtain ⟨hlim, h0, h2, hlen⟩ := h
  unfold handleTopObserver
  dsimp only
  refine ⟨hlim, by dsimp only; omega, by dsimp only; omega, ?_⟩
  have hL : (updateData s.props.updateTemplate (s.pool.drop s.props.pageSize)
        (s.props.getPage (s.start - 1))
      ++ s.pool.take s.props.pageSize).length = s.pool.length := by
    simp only [List.length_append, List.length_drop, updateData_length,
      List.length_take]
    exact pool_split_length s.pool.length s.props.pageSize
  rw [hL, hlen]
  ring

theorem inv_handleEntry (s : VirtualList α β) (e : ObserverEntry)
    (hf : ∀ i, (s.props.getPage i).length = s.props.pageSize)
    (h : Inv s) : Inv (handleEntry s e).1 := by
  unfold handleEntry
  split
  · split
    · exact inv_handleTopObserver s h
    · split
      · exact inv_handleBottomObserver s hf h
      · exact h
  · exact h

theorem runEntries_inv (p : Props α β)
    (hf : ∀ i, (p.getPage i).length = p.pageSize)
    (es : List ObserverEntry) :
    ∀ (s : VirtualList α β), s.props = p → Inv s →
      Inv (runEntries s es) ∧ (runEntries s es).props = p := by
  induction es with
  | nil => exact fun s hs h => ⟨h, hs⟩
  | cons e es ih =>
    intro s hs h
    rw [runEntries_cons]
    refine ih (handleEntry s e).1 ?_ ?_
    · rw [handleEntry_props]; exact hs
    · exact inv_handleEntry s e (by rw [hs]; exact hf) h

/-! ## Concrete fixtures used by the witnesses -/

/-- A one-record-per-page data source with identity templates. -/
def propsOne : Props ℤ ℤ :=
  { getPage := fun i => [i]
    getTemplate := fun d => d
    updateTemplate := fun d _ => d
    pageSize := 1 }

/-- A steady-state component: window `[1, 3)`, pool at the limit `2`. -/
def stateAtLimit : VirtualList ℤ ℤ :=
  { props := propsOne, start := 1, endIdx := 3, limit := 2, pool := [100, 200] }

/-! ## Claim theorems -/

/-- Claim C1: with the pool already at the limit `2 × pageSize` and a
fetch returning exactly `pageSize` records, a bottom-boundary trigger
keeps the pool length at the limit, rebinds exactly the first `pageSize`
views (in order) to the fetched records, rebuilds the pool as the
remaining views followed by the recycled views, and increments both
`start` and `end`. -/
theorem bottomObserver_recycle_at_limit (s : VirtualList α β)
    (hlim : s.limit = s.props.pageSize * 2)
    (hlen : s.pool.length = s.props.pageSize * 2)
    (hdata : (s.props.getPage s.endIdx).length = s.props.pageSize) :
    (handleBottomObserver s).1.pool.length = s.props.pageSize * 2
    ∧ (handleBottomObserver s).1.pool
        = s.pool.drop s.props.pageSize
          ++ List.zipWith (fun d e => s.props.updateTemplate d e)
              (s.props.getPage s.endIdx) (s.pool.take s.props.pageSize)
    ∧ (handleBottomObserver s).1.start = s.start + 1
    ∧ (handleBottomObserver s).1.endIdx = s.endIdx + 1 := by
  have htake : (s.pool.take s.props.pageSize).length = s.props.pageSize := by
    rw [List.length_take, hlen]
    omega
  unfold handleBottomObserver
  dsimp only
  rw [if_neg (by rw [hlen, hlim]; omega)]
  refine ⟨?_, ?_, rfl, rfl⟩
  · dsimp only
    rw [List.length_append, List.length_drop, updateData_length, htake, hlen]
    omega
  · dsimp only
    rw [updateData_eq_zipWith _ _ _ (by rw [htake, hdata])]

theorem bottomObserver_recycle_at_limit_witness :
    stateAtLimit.limit = stateAtLimit.props.pageSize * 2
    ∧ stateAtLimit.pool.length = stateAtLimit.props.pageSize * 2
    ∧ (stateAtLimit.props.getPage stateAtLimit.endIdx).length
        = stateAtLimit.props.pageSize
    ∧ ((handleBottomObserver stateAtLimit).1.pool.length
          = stateAtLimit.props.pageSize * 2
      ∧ (handleBottomObserver stateAtLimit).1.pool
          = stateAtLimit.pool.drop stateAtLimit.props.pageSize
            ++ List.zipWith (fun d e => stateAtLimit.props.updateTemplate d e)
                (stateAtLimit.props.getPage stateAtLimit.endIdx)
                (stateAtLimit.pool.take stateAtLimit.props.pageSize)
      ∧ (handleBottomObserver stateAtLimit).1.start = stateAtLimit.start + 1
      ∧ (handleBottomObserver stateAtLimit).1.endIdx = stateAtLimit.endIdx + 1) :=
  ⟨rfl, rfl, rfl, bottomObserver_recycle_at_limit stateAtLimit rfl rfl rfl⟩

/-- Claim C2: a top-boundary trigger handled with `start > 0` decrements
both cursors, fetches page `start - 1` (the post-decrement value), rebinds
the last `pageSize` views (by prior pool order, given a full pool) in
order to the fetched records, and rebuilds the pool with the recycled
views first, followed by the first `pageSize` views unchanged. -/
theorem topObserver_recycle (s : VirtualList α β)
    (hstart : 0 < s.start)
    (hlen : s.pool.length = s.props.pageSize * 2)
    (hdata : (s.props.getPage (s.start - 1)).length = s.props.pageSize) :
    (handleEntry s ⟨true, "top-observer"⟩).1.start = s.start - 1
    ∧ (handleEntry s ⟨true, "top-observer"⟩).1.endIdx = s.endIdx - 1
    ∧ (handleEntry s ⟨true, "top-observer"⟩).2 = [s.start - 1]
    ∧ (handleEntry s ⟨true, "top-observer"⟩).1.pool
        = List.zipWith (fun d e => s.props.updateTemplate d e)
            (s.props.getPage (s.start - 1)) (s.pool.drop s.props.pageSize)
          ++ s.pool.take s.props.pageSize := by
  have hdrop : (s.pool.drop s.props.pageSize).length = s.props.pageSize := by
    rw [List.length_drop, hlen]
    omega
  unfold handleEntry
  rw [if_pos rfl, if_pos ⟨rfl, hstart⟩]
  unfold handleTopObserver
  dsimp only
  refine ⟨rfl, rfl, rfl, ?_⟩
  rw [updateData_eq_zipWith _ _ _ (by rw [hdrop, hdata])]

theorem topObserver_recycle_witness :
    0 < stateAtLimit.start
    ∧ stateAtLimit.pool.length = stateAtLimit.props.pageSize * 2
    ∧ (stateAtLimit.props.getPage (stateAtLimit.start - 1)).length
        = stateAtLimit.props.pageSize
    ∧ ((handleEntry stateAtLimit ⟨true, "top-observer"⟩).1.start
          = stateAtLimit.start - 1
      ∧ (handleEntry stateAtLimit ⟨true, "top-observer"⟩).1.endIdx
          = stateAtLimit.endIdx - 1
      ∧ (handleEntry stateAtLimit ⟨true, "top-observer"⟩).2 = [stateAtLimit.start - 1]
      ∧ (handleEntry stateAtLimit ⟨true, "top-observer"⟩).1.pool
          = List.zipWith (fun d e => stateAtLimit.props.updateTemplate d e)
              (stateAtLimit.props.getPage (stateAtLimit.start - 1))
              (stateAtLimit.pool.drop stateAtLimit.props.pageSize)
            ++ stateAtLimit.pool.take stateAtLimit.props.pageSize) :=
  ⟨by decide, rfl, rfl, topObserver_recycle stateAtLimit (by decide) rfl rfl⟩

/-- Claim C8: a top-boundary visibility event arriving while `start = 0`
is a strict no-op: the state (cursors, pool, positions) is returned
unchanged and no fetch call is issued. -/
theorem top_trigger_noop_at_start_zero (s : VirtualList α β) (h : s.start = 0) :
    handleEntry s ⟨true, "top-observer"⟩ = (s, []) := by
  unfold handleEntry
  rw [if_pos rfl, if_neg (by rw [h]; simp), if_neg (by decide)]

theorem top_trigger_noop_at_start_zero_witness :
    (construct propsOne).start = 0
    ∧ handleEntry (construct propsOne) ⟨true, "top-observer"⟩
        = (construct propsOne, []) :=
  ⟨rfl, top_trigger_noop_at_start_zero (construct propsOne) rfl⟩

/-- A fully malformed configuration: every config field absent. -/
def rawPropsEmpty : RawProps Unit Unit := ⟨none, none, none, none⟩

/-- Claim C9 (evidence of a code bug): the constructor performs no
configuration validation — with `getPage`, `getTemplate` and `pageSize`
all missing it still succeeds (storing an undefined limit), and the
`TypeError` surfaces only when the first bottom-boundary event evaluates
`this.props.getPage(this.end++)`. -/
theorem constructor_no_validation :
    constructRaw rawPropsEmpty
      = .ok { props := rawPropsEmpty, start := 0, endIdx := 0, limit := none, pool := [] }
    ∧ firstBottomEventFetch
        { props := rawPropsEmpty, start := 0, endIdx := 0, limit := none, pool := [] }
      = .error "TypeError: this.props.getPage is not a function" :=
  ⟨rfl, rfl⟩

/-- Claim C3: starting from the mounted state, under exact `pageSize`
fetches, the pool length never exceeds `2 × pageSize`; a bottom trigger
appends freshly created views exactly while the pool is below the limit,
and otherwise recycles the `pageSize` head views in place of creating new
ones. -/
theorem pool_length_bounded (p : Props α β)
    (hf : ∀ i, (p.getPage i).length = p.pageSize) (es : List ObserverEntry) :
    (runEntries (construct p) es).pool.length ≤ p.pageSize * 2
    ∧ (handleBottomObserver (runEntries (construct p) es)).1.pool
        = (if (runEntries (construct p) es).pool.length < p.pageSize * 2 then
            (runEntries (construct p) es).pool
              ++ (p.getPage (runEntries (construct p) es).endIdx).map p.getTemplate
          else
            (runEntries (construct p) es).pool.drop p.pageSize
              ++ updateData p.updateTemplate
                  ((runEntries (construct p) es).pool.take p.pageSize)
                  (p.getPage (runEntries (construct p) es).endIdx)) := by
  obtain ⟨⟨hlim, h0, h2, hlen⟩, hprops⟩ :=
    runEntries_inv p hf es (construct p) rfl (construct_inv p)
  constructor
  · have hle : ((runEntries (construct p) es).pool.length : ℤ)
        ≤ ((runEntries (construct p) es).props.pageSize : ℤ) * 2 := by
      rw [hlen]
      have hps : (0 : ℤ) ≤ ((runEntries (construct p) es).props.pageSize : ℤ) := by
        exact_mod_cast Nat.zero_le _
      nlinarith
    rw [hprops] at hle
    exact_mod_cast hle
  · unfold handleBottomObserver
    dsimp only
    rw [hprops] at hlim
    rw [hlim, hprops]
    by_cases hc : (runEntries (construct p) es).pool.length < p.pageSize * 2
    · rw [if_pos hc, if_pos hc]
    · rw [if_neg hc, if_neg hc]

theorem pool_length_bounded_witness :
    (∀ i, (propsOne.getPage i).length = propsOne.pageSize)
    ∧ (let es := [ObserverEntry.mk true "bottom-observer",
        ObserverEntry.mk true "bottom-observer", ObserverEntry.mk true "bottom-observer",
        ObserverEntry.mk true "top-observer"]
      (runEntries (construct propsOne) es).pool.length ≤ propsOne.pageSize * 2
      ∧ (handleBottomObserver (runEntries (construct propsOne) es)).1.pool
          = (if (runEntries (construct propsOne) es).pool.length
                < propsOne.pageSize * 2 then
              (runEntries (construct propsOne) es).pool
                ++ ((propsOne.getPage (runEntries (construct propsOne) es).endIdx).map
                    propsOne.getTemplate)
            else
              (runEntries (construct propsOne) es).pool.drop propsOne.pageSize
                ++ updateData propsOne.updateTemplate
                    ((runEntries (construct propsOne) es).pool.take propsOne.pageSize)
                    (propsOne.getPage (runEntries (construct propsOne) es).endIdx))) :=
  ⟨fun _ => rfl, pool_length_bounded propsOne (fun _ => rfl) _⟩

/-- Claim C10: under exact `pageSize` fetches and run-to-completion
handling, every state reachable from the mounted state keeps
`0 ≤ end - start ≤ 2` and a pool of exactly `pageSize × (end - start)`
views — the cursors never drift more than two pages apart. -/
theorem cursors_within_two_pages (p : Props α β)
    (hf : ∀ i, (p.getPage i).length = p.pageSize) (es : List ObserverEntry) :
    0 ≤ (runEntries (construct p) es).endIdx - (runEntries (construct p) es).start
    ∧ (runEntries (construct p) es).endIdx - (runEntries (construct p) es).start ≤ 2
    ∧ ((runEntries (construct p) es).pool.length : ℤ)
        = (p.pageSize : ℤ)
          * ((runEntries (construct p) es).endIdx - (runEntries (construct p) es).start) := by
  obtain ⟨⟨hlim, h0, h2, hlen⟩, hprops⟩ :=
    runEntries_inv p hf es (construct p) rfl (construct_inv p)
  rw [hprops] at hlen
  exact ⟨h0, h2, hlen⟩

theorem cursors_within_two_pages_witness :
    (∀ i, (propsOne.getPage i).length = propsOne.pageSize)
    ∧ (let es := [ObserverEntry.mk true "bottom-observer",
        ObserverEntry.mk true "bottom-observer", ObserverEntry.mk true "bottom-observer",
        ObserverEntry.mk true "top-observer"]
      0 ≤ (runEntries (construct propsOne) es).endIdx
            - (runEntries (construct propsOne) es).start
      ∧ (runEntries (construct propsOne) es).endIdx
            - (runEntries (construct propsOne) es).start ≤ 2
      ∧ ((runEntries (construct propsOne) es).pool.length : ℤ)
          = (propsOne.pageSize : ℤ)
            * ((runEntries (construct propsOne) es).endIdx
              - (runEntries (construct propsOne) es).start)) :=
  ⟨fun _ => rfl, cursors_within_two_pages propsOne (fun _ => rfl) _⟩

/-- Claim C4 counterexample: a "down" pass over the (non-empty) pool left
by a previous pass does not store position 0 on the first view — the
wrap-around read `pool.at(-1)` continues from the last view's stored
position instead. -/
theorem down_first_not_zero_cex :
    yAt (downLoop [{ height := 10, yPos := some 0 }]) 0 ≠ some 0 := by decide

/-- Claim C4 (amended): after a "down" pass over a non-empty pool, each
adjacent pair satisfies `pos(curr) = pos(prev) + height(prev) + 2×MARGIN`,
and the first view's stored position is `downFirstVal pool`: 0 exactly
when the last view's position was unset at pass start, otherwise the last
view's prior position plus its height plus `2 × MARGIN`. -/
theorem down_pass_layout (pool : List View) (hne : pool ≠ []) :
    yAt (downLoop pool) 0 = some (downFirstVal pool)
    ∧ ∀ i, 0 < i → i < pool.length →
        ∃ p, yAt (downLoop pool) (i - 1) = some p ∧
          yAt (downLoop pool) i = some (p + MARGIN * 2 + hAt pool (i - 1)) :=
  ⟨downLoop_first pool hne, fun i h0 hi => downLoop_rel pool i h0 hi⟩

theorem down_pass_layout_witness :
    (([{ height := 10, yPos := none }, { height := 20, yPos := none }] : List View) ≠ [])
    ∧ (yAt (downLoop [{ height := 10, yPos := none }, { height := 20, yPos := none }]) 0
        = some (downFirstVal
            [{ height := 10, yPos := none }, { height := 20, yPos := none }])
      ∧ ∀ i, 0 < i →
          i < ([{ height := 10, yPos := none },
                { height := 20, yPos := none }] : List View).length →
          ∃ p, yAt (downLoop [{ height := 10, yPos := none },
                  { height := 20, yPos := none }]) (i - 1) = some p ∧
            yAt (downLoop [{ height := 10, yPos := none },
                { height := 20, yPos := none }]) i
              = some (p + MARGIN * 2
                  + hAt [{ height := 10, yPos := none },
                      { height := 20, yPos := none }] (i - 1))) :=
  ⟨by decide, down_pass_layout _ (by decide)⟩

/-- Claim C5 counterexample: re-running the "down" pass immediately, with
the pool and heights unchanged, does not reproduce the same stored
positions — the second run restarts from the tail's stored position. -/
theorem down_rerun_not_idempotent_cex :
    yAt (downLoop (downLoop [{ height := 10, yPos := none }])) 0
      ≠ yAt (downLoop [{ height := 10, yPos := none }]) 0 := by decide

/-- Claim C5 (amended): re-running the "down" pass with the pool and
heights unchanged shifts every stored position by one uniform constant
(the relative layout is reproduced, the absolute positions are not). -/
theorem down_rerun_uniform_shift (pool : List View) :
    ∃ c : ℤ, ∀ i, i < pool.length →
      ∃ a, yAt (downLoop pool) i = some a ∧
        yAt (downLoop (downLoop pool)) i = some (a + c) :=
  downLoop_rerun_shift pool

/-- Claim C6: a "top" pass (with the slot at index `pageSize` holding a
stored position, as it does in a full pool) updates exactly slots
`0 … pageSize-1`, storing on each the next slot's position minus the
view's own height minus `2 × MARGIN`. -/
theorem top_pass_layout (ps : Nat) (pool : List View) (hps : ps < pool.length)
    (v : ℤ) (hv : yAt pool ps = some v) :
    (∀ j, ps ≤ j → (topLoop ps pool).get? j = pool.get? j)
    ∧ ∀ i, i < ps →
        ∃ q, yAt (topLoop ps pool) (i + 1) = some q ∧
          yAt (topLoop ps pool) i = some (q - MARGIN * 2 - hAt pool i) :=
  ⟨topLoop_untouched ps pool hps v hv, topLoop_rel ps pool hps v hv⟩

theorem top_pass_layout_witness :
    (1 < ([{ height := 10, yPos := some 99 },
        { height := 20, yPos := some 50 }] : List View).length)
    ∧ (yAt [{ height := 10, yPos := some 99 }, { height := 20, yPos := some 50 }] 1
        = some 50)
    ∧ ((∀ j, 1 ≤ j →
        (topLoop 1 [{ height := 10, yPos := some 99 },
            { height := 20, yPos := some 50 }]).get? j
          = ([{ height := 10, yPos := some 99 },
              { height := 20, yPos := some 50 }] : List View).get? j)
      ∧ ∀ i, i < 1 →
          ∃ q, yAt (topLoop 1 [{ height := 10, yPos := some 99 },
                { height := 20, yPos := some 50 }]) (i + 1) = some q ∧
            yAt (topLoop 1 [{ height := 10, yPos := some 99 },
                { height := 20, yPos := some 50 }]) i
              = some (q - MARGIN * 2
                  - hAt [{ height := 10, yPos := some 99 },
                      { height := 20, yPos := some 50 }] i)) :=
  ⟨by decide, by decide, top_pass_layout 1 _ (by decide) 50 (by decide)⟩

/-- Claim C7: after a layout pass in either mode, the top sentinel sits at
the first pool view's stored position and the bottom sentinel at the last
pool view's stored position plus that view's height plus `2 × MARGIN`,
both applied as translation transforms. -/
theorem sentinel_positions (ps : Nat) (dir : Direction) (pool : List View)
    (f l : View) (t v : ℤ)
    (hf : (updateElementsPosition ps dir pool).pool.head? = some f)
    (ht : f.yPos = some t)
    (hl : (updateElementsPosition ps dir pool).pool.getLast? = some l)
    (hv : l.yPos = some v) :
    (updateElementsPosition ps dir pool).topY = some t
    ∧ (updateElementsPosition ps dir pool).bottomY
        = some (v + MARGIN * 2 + l.height) := by
  unfold updateElementsPosition at hf hl ⊢
  dsimp only at hf hl ⊢
  constructor
  · rw [hf]
    exact ht
  · rw [hl]
    simp [hv]

theorem sentinel_positions_witness :
    ((updateElementsPosition 1 Direction.down
        [{ height := 10, yPos := none }, { height := 20, yPos := none }]).pool.head?
      = some { height := 10, yPos := some 0 })
    ∧ (View.yPos { height := 10, yPos := some 0 } = some 0)
    ∧ ((updateElementsPosition 1 Direction.down
        [{ height := 10, yPos := none }, { height := 20, yPos := none }]).pool.getLast?
      = some { height := 20, yPos := some 42 })
    ∧ (View.yPos { height := 20, yPos := some 42 } = some 42)
    ∧ ((updateElementsPosition 1 Direction.down
          [{ height := 10, yPos := none }, { height := 20, yPos := none }]).topY
        = some 0
      ∧ (updateElementsPosition 1 Direction.down
          [{ height := 10, yPos := none }, { height := 20, yPos := none }]).bottomY
        = some (42 + MARGIN * 2 + View.height { height := 20, yPos := some 42 })) :=
  ⟨by decide, by decide, by decide, by decide,
   sentinel_positions 1 Direction.down
     [{ height := 10, yPos := none }, { height := 20, yPos := none }]
     { height := 10, yPos := some 0 } { height := 20, yPos := some 42 } 0 42
     (by decide) (by decide) (by decide) (by decide)⟩

end VirtualListSpec
